import Mathlib

/-!
# Verification of the parts-scraper enrichment pipeline

Shallow embedding of the core of `gabehal/parts-scraper`:
the make-extraction heuristics of `src/rockauto_scraper.py`
(`AutoPartsDetector`) and the session state machine / leaderboard /
broadcaster of `src/backend/main.py` (`ProcessingState`,
`ConnectionManager`, `WebAutoPartsDetector.process_parts_batch_async`,
and the start/stop/resume endpoints).

Python strings are modelled as Lean `String`s with ASCII case
semantics; Python dicts that preserve insertion order are modelled as
association lists; the cooperative-async interleaving of the stop
endpoint with the worker is modelled by an arrival schedule indexed by
the worker's observation points.
-/

/-! ## ASCII character model (Python `str.upper` / `str.lower` / `str.title`) -/

/-- Is `c` an ASCII lowercase letter (`a`-`z`)? -/
def isAsciiLowerCh (c : Char) : Bool := 97 ≤ c.toNat && c.toNat ≤ 122

/-- Is `c` an ASCII uppercase letter (`A`-`Z`)? -/
def isAsciiUpperCh (c : Char) : Bool := 65 ≤ c.toNat && c.toNat ≤ 90

/-- Is `c` an ASCII letter? Models Python's notion of a cased character
for the ASCII strings this program manipulates. -/
def pyIsAlpha (c : Char) : Bool := isAsciiUpperCh c || isAsciiLowerCh c

/-- Uppercase one character, as Python `str.upper` does on ASCII. -/
def pyCharUpper (c : Char) : Char :=
  if 97 ≤ c.toNat ∧ c.toNat ≤ 122 then Char.ofNat (c.toNat - 32) else c

/-- Lowercase one character, as Python `str.lower` does on ASCII. -/
def pyCharLower (c : Char) : Char :=
  if 65 ≤ c.toNat ∧ c.toNat ≤ 90 then Char.ofNat (c.toNat + 32) else c

/-- Python `str.upper`. -/
def pyUpper (s : String) : String := ⟨s.data.map pyCharUpper⟩

/-- Python `str.lower`. -/
def pyLower (s : String) : String := ⟨s.data.map pyCharLower⟩

/-- Worker for `pyTitle`: the `Bool` records whether the previous
character was cased, exactly Python's `str.title` state. -/
def pyTitleGo : Bool → List Char → List Char
  | _, [] => []
  | prevCased, c :: rest =>
    if pyIsAlpha c then
      (if prevCased then pyCharLower c else pyCharUpper c) :: pyTitleGo true rest
    else
      c :: pyTitleGo false rest

/-- Python `str.title`: uppercase every cased character that follows an
uncased one, lowercase the rest. -/
def pyTitle (s : String) : String := ⟨pyTitleGo false s.data⟩

/-! ## Detector dictionaries and normalisation
(`AutoPartsDetector._is_known_make`, `_normalize_make`,
`_is_valid_make`, `src/rockauto_scraper.py` lines 496-518) -/

/-- The closed dictionary of known automotive manufacturers
(`_is_known_make`, lines 498-505). -/
def known_makes : List String :=
  ["FORD", "CHEVROLET", "CHEVY", "DODGE", "TOYOTA", "HONDA", "NISSAN",
   "BMW", "MERCEDES", "AUDI", "VOLKSWAGEN", "SUBARU", "MAZDA",
   "HYUNDAI", "KIA", "JEEP", "CHRYSLER", "BUICK", "CADILLAC",
   "ACURA", "INFINITI", "LEXUS", "LINCOLN", "VOLVO", "SAAB",
   "MITSUBISHI", "ISUZU", "SUZUKI", "PONTIAC", "OLDSMOBILE",
   "SATURN", "MERCURY", "PLYMOUTH", "EAGLE", "GEO"]

/-- `AutoPartsDetector._is_known_make`: case-insensitive membership in
the closed make dictionary. -/
def is_known_make (make : String) : Bool := known_makes.contains (pyUpper make)

/-- `AutoPartsDetector._normalize_make`: the `CHEVY` alias folds to
`Chevrolet`; every other candidate is title-cased. -/
def normalize_make (make : String) : String :=
  if pyUpper make = "CHEVY" then "Chevrolet" else pyTitle make

/-- The stoplist of generic terms used by `_is_valid_make` (line 517). -/
def invalid_terms : List String :=
  ["part", "parts", "auto", "car", "vehicle", "search", "catalog", "home"]

/-- `AutoPartsDetector._is_valid_make`: not a generic stoplist term and
longer than one character. -/
def is_valid_make (make : String) : Bool :=
  !(invalid_terms.contains (pyLower make)) && make.length > 1

/-! ## Executable string primitives

Core `String.split`/`String.trim` are byte-position based and do not
reduce in the kernel, so the Python string operations are implemented
directly over the character list. -/

/-- Python's whitespace class for `str.strip` / `str.split()`. -/
def isPyWs (c : Char) : Bool :=
  c == ' ' || c == '\t' || c == '\n' || c == '\r' || c.toNat == 11 || c.toNat == 12

/-- Worker for `pySplitOn`, accumulating the current (reversed) token. -/
def splitOnGo (p : Char → Bool) : List Char → List Char → List String
  | cur, [] => [⟨cur.reverse⟩]
  | cur, c :: rest =>
    if p c then ⟨cur.reverse⟩ :: splitOnGo p [] rest else splitOnGo p (c :: cur) rest

/-- Python `str.split(sep)` with a one-character separator class:
keeps empty tokens, and splitting the empty string yields `[""]`. -/
def pySplitOn (p : Char → Bool) (s : String) : List String := splitOnGo p [] s.data

/-- Python `str.strip()`. -/
def pyStrip (s : String) : String :=
  ⟨((s.data.dropWhile isPyWs).reverse.dropWhile isPyWs).reverse⟩

/-- Python `str.split()` with no argument: whitespace runs separate
tokens and no empty tokens are produced. -/
def pySplitWs (s : String) : List String := (pySplitOn isPyWs s).filter (· ≠ "")

/-- Lexicographic (code-point) comparison of character lists, Python's
`<=` on strings. -/
def charsLe : List Char → List Char → Bool
  | [], _ => true
  | _ :: _, [] => false
  | a :: as, b :: bs =>
    if a.toNat < b.toNat then true else if b.toNat < a.toNat then false else charsLe as bs

/-- Python `<=` on strings. -/
def strLe (a b : String) : Bool := charsLe a.data b.data

/-- Python `sep.join(l)`. -/
def joinWith (sep : String) : List String → String
  | [] => ""
  | [x] => x
  | x :: y :: xs => x ++ sep ++ joinWith sep (y :: xs)

/-! ## Extraction engine, per-cell heuristics
(`AutoPartsDetector._extract_makes_from_popup`, inner loop over table
cells, `src/rockauto_scraper.py` lines 451-484) -/

/-- Python's `\w` word-character class (ASCII model). -/
def isWordChar (c : Char) : Bool :=
  pyIsAlpha c || (48 ≤ c.toNat && c.toNat ≤ 57) || c == '_'

/-- An ASCII digit, the `\d` class. -/
def isDigitCh (c : Char) : Bool := 48 ≤ c.toNat && c.toNat ≤ 57

/-- `re.sub(r'[^\w]', '', word)`: delete every non-word character. -/
def wordClean (w : String) : String := ⟨w.data.filter isWordChar⟩

/-- Python-set insertion into the accumulated make list (`makes.add`),
keeping first-insertion order. -/
def setAdd (s : List String) (x : String) : List String :=
  if x ∈ s then s else s ++ [x]

/-- Shared tail of all three heuristics: each candidate token is gated
by `_is_known_make` and added normalised. -/
def addCandidates (s : List String) (cands : List String) : List String :=
  cands.foldl (fun acc w => if is_known_make w then setAdd acc (normalize_make w) else acc) s

/-- One attempt of the year-make regex
`\b(19|20)\d{2}[-\s]+([A-Z][A-Z]+)` at the current position (the
word boundary is checked by the caller); returns the `make` group.
The separator and make classes are disjoint, so the greedy quantifiers
match the maximal runs with no backtracking. -/
def tryYearMake : List Char → Option String
  | c1 :: c2 :: c3 :: c4 :: rest =>
    if ((c1 = '1' ∧ c2 = '9') ∨ (c1 = '2' ∧ c2 = '0')) ∧
        isDigitCh c3 = true ∧ isDigitCh c4 = true then
      let sep := rest.takeWhile (fun c => c == '-' || isPyWs c)
      let rest2 := rest.drop sep.length
      let mk := rest2.takeWhile isAsciiUpperCh
      if 1 ≤ sep.length ∧ 2 ≤ mk.length then some ⟨mk⟩ else none
    else none
  | _ => none

/-- `re.findall` of the year-make pattern. A match can never start
inside an earlier match (every interior position either follows a word
character or holds a character that cannot start `19|20`), so the
non-overlapping scan is equivalent to trying every boundary position. -/
def yearMakeScan : Bool → List Char → List String
  | _, [] => []
  | prevWord, c :: rest =>
    match if prevWord then none else tryYearMake (c :: rest) with
    | some mk => mk :: yearMakeScan (isWordChar c) rest
    | none => yearMakeScan (isWordChar c) rest

/-- Match a literal pattern at the head of the text, returning the
remainder. Used for the (case-sensitive) keyword alternation
`fits?|compatible|for`. -/
def matchLiteral : List Char → List Char → Option (List Char)
  | [], l => some l
  | _ :: _, [] => none
  | p :: ps, c :: cs => if c = p then matchLiteral ps cs else none

/-- The `[:.\s]` separator class of the fits-clause regex. -/
def fitsSepCh (c : Char) : Bool := c == ':' || c == '.' || isPyWs c

/-- The `[A-Z\s,]` capture class of the fits-clause regex. -/
def fitsCapCh (c : Char) : Bool := isAsciiUpperCh c || isPyWs c || c == ','

/-- Backtracking for `[:.\s]*([A-Z\s,]+)`: try the separator length
from `k` (the greedy maximum) downwards until the capture group is
non-empty. -/
def fitsCaptureAux (t : List Char) : Nat → Option (List Char)
  | 0 =>
    let cap := t.takeWhile fitsCapCh
    if cap ≠ [] then some cap else none
  | k + 1 =>
    let cap := (t.drop (k + 1)).takeWhile fitsCapCh
    if cap ≠ [] then some cap else fitsCaptureAux t k

/-- Match `[:.\s]*([A-Z\s,]+)` against `t`, returning the capture. -/
def fitsCapture (t : List Char) : Option (List Char) :=
  fitsCaptureAux t ((t.takeWhile fitsSepCh).length)

/-- Try the whole fits-clause pattern at one position: the keyword
alternation is attempted in regex order (`fits`, `fit`, `compatible`,
`for`), each followed by the separator/capture tail. -/
def fitsTryAt (l : List Char) : Option (List Char) :=
  match (matchLiteral "fits".data l).bind fitsCapture with
  | some cap => some cap
  | none =>
    match (matchLiteral "fit".data l).bind fitsCapture with
    | some cap => some cap
    | none =>
      match (matchLiteral "compatible".data l).bind fitsCapture with
      | some cap => some cap
      | none => (matchLiteral "for".data l).bind fitsCapture

/-- `re.search(r'(?:fits?|compatible|for)[:.\s]*([A-Z\s,]+)', text)`:
leftmost match wins. The keyword literals are lowercase and the
function is applied to the upper-cased cell text, faithful to the
source. -/
def fitsSearchGo : List Char → Option (List Char)
  | [] => none
  | c :: rest =>
    match fitsTryAt (c :: rest) with
    | some cap => some cap
    | none => fitsSearchGo rest

/-- Maximal runs of `A-Z` characters. On a fits-clause capture (whose
other characters are whitespace and commas, all non-word) these are
exactly the `\b([A-Z]{3,})\b` matches once filtered by length. -/
def upperRuns : List Char → List (List Char)
  | [] => []
  | c :: rest =>
    let rs := upperRuns rest
    if isAsciiUpperCh c then
      match rest, rs with
      | r :: _, run :: runs => if isAsciiUpperCh r then (c :: run) :: runs else [c] :: rs
      | _, _ => [c] :: rs
    else rs

/-- Process one fitment-panel table cell (`_extract_makes_from_popup`,
lines 451-484): strip the cell text, skip it when empty, upper-case it,
then run the three heuristics in order, accumulating into the make
set. -/
def extract_makes_from_cell (makes : List String) (cellText : String) : List String :=
  let text := pyStrip cellText
  if text = "" then makes
  else
    let tu := pyUpper text
    let m1 := addCandidates makes (yearMakeScan false tu.data)
    let m2 := addCandidates m1 ((pySplitWs tu).map wordClean)
    match fitsSearchGo tu.data with
    | some cap =>
        addCandidates m2 (((upperRuns cap).filter (fun r => 3 ≤ r.length)).map (⟨·⟩))
    | none => m2

/-! ## Leaderboard aggregator
(`ProcessingState.update_leaderboard` / `get_top_makes`,
`src/backend/main.py` lines 279-299). The Python dict
`{make: {'count', 'weighted_count'}}` preserves insertion order and is
modelled as an association list with new makes appended at the end. -/

/-- One leaderboard value: `{'count': int, 'weighted_count': int}`. -/
structure LBEntry where
  count : Nat
  weighted : Int
deriving Repr, DecidableEq

/-- Dictionary lookup with the zero entry for an absent make. -/
def lbGet : List (String × LBEntry) → String → LBEntry
  | [], _ => ⟨0, 0⟩
  | e :: rest, m => if e.1 = m then e.2 else lbGet rest m

/-- Split of the `makes` field inside `update_leaderboard`:
`[make.strip() for make in makes_list.split(',') if make.strip()]`. -/
def splitMakes (makes_list : String) : List String :=
  ((pySplitOn (· == ',') makes_list).map pyStrip).filter (· ≠ "")

/-- The per-make body of `update_leaderboard`: create the zero entry if
the make is new (at the end, preserving dict insertion order), then add
1 to `count` and `quantity` to `weighted_count`. -/
def lbBump (lb : List (String × LBEntry)) (make : String) (quantity : Int) :
    List (String × LBEntry) :=
  let lb1 := if lb.any (·.1 = make) then lb else lb ++ [(make, ⟨0, 0⟩)]
  lb1.map (fun e => if e.1 = make then (e.1, ⟨e.2.count + 1, e.2.weighted + quantity⟩) else e)

/-- `ProcessingState.update_leaderboard(makes_list, quantity)`. The
guard is Python truthiness: the empty string and the `NOT_FOUND`
sentinel are no-ops. -/
def update_leaderboard (lb : List (String × LBEntry)) (makes_list : String)
    (quantity : Int) : List (String × LBEntry) :=
  if makes_list ≠ "" ∧ makes_list ≠ "NOT_FOUND" then
    (splitMakes makes_list).foldl (fun acc make => lbBump acc make quantity) lb
  else lb

/-- `ProcessingState.get_top_makes(limit)`: Python's stable `sorted`
with `reverse=True` on the `weighted_count` key, truncated to `limit`.
Mathlib's `insertionSort` is stable, and with this relation it places
ties in input (= insertion) order, exactly like `sorted`. -/
def get_top_makes (lb : List (String × LBEntry)) (limit : Nat) :
    List (String × LBEntry) :=
  (List.insertionSort (fun a b => b.2.weighted ≤ a.2.weighted) lb).take limit

/-! ## Progress broadcaster
(`ConnectionManager.broadcast`, `src/backend/main.py` lines 372-390).
An observer is any type with decidable equality; `ok c m` abstracts
whether `connection.send_text` succeeds for observer `c` and message
`m`. -/

/-- The send loop of `broadcast`: returns the observers that received
the message and the ones whose send raised (in registry order). -/
def broadcastLoop {α : Type} (ok : α → Bool) : List α → List α × List α
  | [] => ([], [])
  | c :: rest =>
    let (d, disc) := broadcastLoop ok rest
    if ok c then (c :: d, disc) else (d, c :: disc)

/-- `ConnectionManager.broadcast`: send to every registered observer,
then `disconnect` (remove) each observer whose send failed. -/
def broadcast {α : Type} [DecidableEq α] (ok : α → Bool) (conns : List α) :
    List α × List α :=
  let (delivered, disconnected) := broadcastLoop ok conns
  (delivered, disconnected.foldl (fun acc c => acc.erase c) conns)

/-- A sequence of broadcasts in emission order; returns the final
registry and the delivery log (observer, message) in delivery order. -/
def runBroadcasts {α Msg : Type} [DecidableEq α] (ok : α → Msg → Bool) :
    List Msg → List α → List α × List (α × Msg)
  | [], conns => (conns, [])
  | msg :: rest, conns =>
    let (delivered, conns1) := broadcast (fun c => ok c msg) conns
    let (final, log) := runBroadcasts ok rest conns1
    (final, delivered.map (fun c => (c, msg)) ++ log)

/-- The messages a single observer received, in delivery order. -/
def deliveredTo {α Msg : Type} [DecidableEq α] (o : α) (log : List (α × Msg)) :
    List Msg :=
  (log.filter (·.1 = o)).map (·.2)

/-! ## Data model: part records and enriched results -/

/-- One automotive part record as produced by `categorize_parts`
(float price fields are not touched by the core and are omitted). -/
structure PartRecord where
  index : Nat
  item_num : String
  part_number : String
  description : String
  qty : Int
deriving Repr, DecidableEq

/-- One `EnrichedResult`: the part record plus the `makes`, `source`
and `category` fields set by `process_parts_batch_async`. -/
structure EnrichedResult where
  index : Nat
  item_num : String
  part_number : String
  description : String
  qty : Int
  category : String
  makes : String
  source : String
deriving Repr, DecidableEq

/-- `', '.join(sorted(list(set(makes))))`: deduplicate, sort
lexicographically ascending, join. -/
def joinMakes (ms : List String) : String :=
  joinWith ", " (List.insertionSort (fun a b => strLe a b = true) ms.dedup)

/-- Build the `EnrichedResult` for one part from the search outcome
(lines 450-465 of `main.py`): a truthy (non-empty) make list is
deduplicated, sorted and joined; otherwise the `NOT_FOUND`/`NONE`
sentinels are recorded. -/
def mkResult (p : PartRecord) (makes : Option (List String)) : EnrichedResult :=
  match makes with
  | some (m :: ms) =>
    { index := p.index, item_num := p.item_num, part_number := p.part_number,
      description := p.description, qty := p.qty, category := "Automotive",
      makes := joinMakes (m :: ms), source := "RockAuto" }
  | _ =>
    { index := p.index, item_num := p.item_num, part_number := p.part_number,
      description := p.description, qty := p.qty, category := "Automotive",
      makes := "NOT_FOUND", source := "NONE" }

/-- `AutoPartsDetector.search_rockauto`, lines 316-323: the search
checks the global stop flag at its start and returns `None` without
fetching when it is set; otherwise the browser fetch and popup
extraction run, abstracted here by `fetched` (the `PageFetcher`
collaborator of the spec). -/
def search_rockauto_model (should_stop : Bool) (fetched : Option (List String)) :
    Option (List String) :=
  if should_stop then none else fetched

/-! ## Session state machine
(`ProcessingState` and the endpoints of `src/backend/main.py`).
The stop endpoint runs interleaved with the single async worker; the
worker only yields at its `await` points, so the value of
`state.should_stop` it observes is determined by when the stop request
arrives relative to those points. An arrival time `a` (half-steps:
`a ≤ 2*i` means the flag is up by iteration `i`'s boundary check,
`a ≤ 2*i+1` by iteration `i`'s fetch) models this interleaving. -/

/-- The categorized upload (`detector.categorize_parts()`). -/
structure PartsData where
  automotive : List PartRecord
  tools : List PartRecord
  unknown : List PartRecord
deriving Repr, DecidableEq

/-- The process-wide `ProcessingState` singleton (the fields the core
mutates; the detector object and websocket set are modelled
separately). -/
structure AppState where
  is_processing : Bool
  current_session_id : Option Nat
  parts_data : Option PartsData
  total_parts : Nat
  processed_count : Nat
  results : List EnrichedResult
  start_index : Nat
  end_index : Nat
  error_message : Option String
  should_stop : Bool
  make_leaderboard : List (String × LBEntry)
deriving Repr, DecidableEq

/-- The fresh state constructed at process start. -/
def initialState : AppState :=
  { is_processing := false, current_session_id := none, parts_data := none,
    total_parts := 0, processed_count := 0, results := [], start_index := 0,
    end_index := 0, error_message := none, should_stop := false,
    make_leaderboard := [] }

/-- The checkpoint written by `ProcessingState.save_session` (the
session-data dict of lines 98-108, minus the timestamp). -/
structure SavedSession where
  session_id : Nat
  parts_data : Option PartsData
  total_parts : Nat
  processed_count : Nat
  results : List EnrichedResult
  start_index : Nat
  end_index : Nat
  make_leaderboard : List (String × LBEntry)
deriving Repr, DecidableEq

/-- `ProcessingState.save_session`: snapshot the checkpointed fields. -/
def save_session (s : AppState) : SavedSession :=
  { session_id := s.current_session_id.getD 0, parts_data := s.parts_data,
    total_parts := s.total_parts, processed_count := s.processed_count,
    results := s.results, start_index := s.start_index, end_index := s.end_index,
    make_leaderboard := s.make_leaderboard }

/-- `ProcessingState.load_session`: restore the checkpointed fields
(`is_processing`, `should_stop` and `error_message` are untouched). -/
def load_session (s : AppState) (sess : SavedSession) : AppState :=
  { s with current_session_id := some sess.session_id, parts_data := sess.parts_data,
           total_parts := sess.total_parts, processed_count := sess.processed_count,
           results := sess.results, start_index := sess.start_index,
           end_index := sess.end_index, make_leaderboard := sess.make_leaderboard }

/-- Value of `state.should_stop` observed at iteration `i`'s
record-boundary check, for a stop request arriving at time `arrival`. -/
def stopSeenAtBoundary (arrival : Option Nat) (i : Nat) : Bool :=
  match arrival with
  | some a => a ≤ 2 * i
  | none => false

/-- Value of `state.should_stop` observed by `search_rockauto`'s own
stop check during iteration `i`'s fetch. -/
def stopSeenAtFetch (arrival : Option Nat) (i : Nat) : Bool :=
  match arrival with
  | some a => a ≤ 2 * i + 1
  | none => false

/-- Line 469 of `main.py`:
`state.processed_count + 1 if hasattr(state, 'processed_count') and state.processed_count else i + 1`
(`hasattr` is always true; `0` is falsy). -/
def processedCountUpdate (pc i : Nat) : Nat := if pc ≠ 0 then pc + 1 else i + 1

/-- `WebAutoPartsDetector.process_parts_batch_async` (lines 400-507):
iterate the slice, checking the stop flag at each record boundary,
searching (which itself re-checks the flag), appending the result to
the local `results` list, mirroring it into `state.results`, updating
`processed_count` and the leaderboard, and calling `save_session`
every 10 records. `lookup` abstracts the browser fetch for one part;
`saveOk i` tells whether the checkpoint write at iteration `i`
succeeds — when it fails the exception propagates (third component
`false`), leaving the state as already mutated. -/
def runBatch (lookup : PartRecord → Option (List String)) (arrival : Option Nat)
    (saveOk : Nat → Bool) :
    List PartRecord → Nat → List EnrichedResult → AppState →
      AppState × List EnrichedResult × Bool
  | [], _, acc, s => (s, acc, true)
  | p :: rest, i, acc, s =>
    if stopSeenAtBoundary arrival i then (s, acc, true)
    else
      let makes := search_rockauto_model (stopSeenAtFetch arrival i) (lookup p)
      let r := mkResult p makes
      let acc2 := acc ++ [r]
      let s2 := { s with processed_count := processedCountUpdate s.processed_count i,
                         results := acc2,
                         make_leaderboard := update_leaderboard s.make_leaderboard r.makes p.qty }
      if (i + 1) % 10 = 0 ∧ saveOk i = false then (s2, acc2, false)
      else runBatch lookup arrival saveOk rest (i + 1) acc2 s2

/-- `process_parts_background` (lines 922-989): run the batch; on an
uncaught exception record `error_message` and stop; otherwise take the
completed or the stopped path depending on `state.should_stop`. On the
completed path the final `save_session`/`save_to_history` writes also
run inside the same `try`, abstracted by `finalPersistOk`. -/
def processPartsBackground (lookup : PartRecord → Option (List String))
    (arrival : Option Nat) (saveOk : Nat → Bool) (finalPersistOk : Bool)
    (parts : List PartRecord) (s : AppState) : AppState :=
  let out := runBatch lookup arrival saveOk parts 0 [] s
  let s2 := out.1
  let res := out.2.1
  if out.2.2 = false then
    { s2 with error_message := some "checkpoint write failed", is_processing := false }
  else
    let stopRequested := match arrival with
      | some a => a ≤ 2 * parts.length
      | none => false
    if stopRequested = false then
      if finalPersistOk then
        { s2 with results := res, is_processing := false }
      else
        { s2 with results := res, is_processing := false,
                  error_message := some "final persistence failed" }
    else
      { s2 with results := res, is_processing := false }

/-- The body of a `/api/start` request. -/
structure ProcessingRequest where
  start_index : Int
  end_index : Option Int
  is_test : Bool
deriving Repr, DecidableEq

/-- Did the endpoint accept (no `HTTPException`)? -/
def isOkE {α : Type} (e : Except String α) : Bool :=
  match e with
  | .ok _ => true
  | .error _ => false

/-- `start_processing` (lines 557-624): reject while processing or
without data; resolve the requested range (test mode processes
`[0, min 50 total)`); validate it with the three checks of lines
588-593; only then mutate the session state and hand the slice
`automotive[start:end]` plus the absolute start index to the spawned
background task. All rejections happen before any mutation. -/
def start_processing (s : AppState) (sid : Nat) (req : ProcessingRequest) :
    AppState × Except String (List PartRecord × Nat) :=
  if s.is_processing then (s, .error "Processing already in progress")
  else
    match s.parts_data with
    | none => (s, .error "No data loaded. Please upload a CSV file first.")
    | some pd =>
      let total : Int := pd.automotive.length
      let se : Int × Int :=
        if req.is_test then (0, min 50 total)
        else (req.start_index, req.end_index.getD total)
      let start_idx := se.1
      let end_idx := se.2
      if start_idx < 0 ∨ start_idx ≥ total then (s, .error "Invalid start index")
      else if end_idx ≤ start_idx then (s, .error "Invalid range")
      else if end_idx > total then (s, .error "Invalid end index")
      else
        let s2 := { s with is_processing := true, current_session_id := some sid,
                           start_index := start_idx.toNat, end_index := end_idx.toNat,
                           processed_count := 0, results := [], should_stop := false,
                           error_message := none }
        let parts_to_process :=
          (pd.automotive.drop start_idx.toNat).take (end_idx.toNat - start_idx.toNat)
        (s2, .ok (parts_to_process, start_idx.toNat))

/-- The tail of `stop_processing` (lines 626-661) after the worker has
observed the flag and exited: the `is_processing` early-return check
passed while the worker was still running, and the flag-raising itself
is what the worker's arrival schedule models; the endpoint then saves
a checkpoint (when a session exists), broadcasts `stopped` and clears
`is_processing`. -/
def stop_processing_after_worker (s : AppState) : AppState × Option SavedSession :=
  let s1 := { s with should_stop := true }
  let saved := if s1.current_session_id.isSome then some (save_session s1) else none
  ({ s1 with is_processing := false }, saved)

/-- `resume_session` (lines 774-815): reject while processing; load the
checkpoint (mutating the state); reject when nothing remains; then
resume from absolute index `start_index + processed_count`, handing
`automotive[start_from:end_index]` to the background task. -/
def resume_session (s : AppState) (sess : SavedSession) :
    AppState × Except String (List PartRecord × Nat) :=
  if s.is_processing then (s, .error "Processing already in progress")
  else
    let s1 := load_session s sess
    let remaining : Int :=
      (s1.end_index : Int) - (s1.start_index : Int) - (s1.processed_count : Int)
    if remaining ≤ 0 then (s1, .error "Session already completed")
    else
      match s1.parts_data with
      | none => (s1, .error "no parts data in session")
      | some pd =>
        let start_from := s1.start_index + s1.processed_count
        let parts := (pd.automotive.drop start_from).take (s1.end_index - start_from)
        ({ s1 with is_processing := true, should_stop := false, error_message := none },
         .ok (parts, start_from))

/-! ## Concrete scenarios used to evaluate the model -/

/-- A demonstration automotive part record. -/
def demoPart (n : Nat) : PartRecord :=
  { index := n, item_num := "ITEM_P" ++ toString n, part_number := "P" ++ toString n,
    description := "BRAKE PAD", qty := 1 }

/-- A deterministic search outcome: part 0 fits Honda, every other
part fits Ford. -/
def demoLookup (p : PartRecord) : Option (List String) :=
  if p.index = 0 then some ["Honda"] else some ["Ford"]

/-- State after uploading a two-part automotive catalog. -/
def demoState0 : AppState :=
  { initialState with
    parts_data := some ⟨[demoPart 0, demoPart 1], [], []⟩, total_parts := 2 }

/-- `Start(0, 2)` on the two-part catalog. -/
def demoStart : AppState × Except String (List PartRecord × Nat) :=
  start_processing demoState0 1 ⟨0, some 2, false⟩

/-- The slice handed to the first background run. -/
def demoSlice : List PartRecord :=
  match demoStart.2 with
  | .ok (ps, _) => ps
  | .error _ => []

/-- First run: the stop request arrives after record 0's result is
produced and is observed at the boundary of iteration 1 (arrival time
2), so the worker stops after one processed record. -/
def demoPreStop : AppState :=
  processPartsBackground demoLookup (some 2) (fun _ => true) true demoSlice demoStart.1

/-- The stop endpoint then checkpoints the one-record session. -/
def demoStop : AppState × Option SavedSession :=
  stop_processing_after_worker demoPreStop

/-- The checkpoint written at stop time. -/
def demoSaved : SavedSession := (demoStop.2).getD (save_session demoPreStop)

/-- `Resume(session)` on the stopped state. -/
def demoResume : AppState × Except String (List PartRecord × Nat) :=
  resume_session demoStop.1 demoSaved

/-- The slice handed to the resumed background run. -/
def demoResumeSlice : List PartRecord :=
  match demoResume.2 with
  | .ok (ps, _) => ps
  | .error _ => []

/-- The resumed run completes without interruption. -/
def demoFinal : AppState :=
  processPartsBackground demoLookup none (fun _ => true) true demoResumeSlice demoResume.1

/-- Eleven demonstration parts, for the checkpoint-failure scenario. -/
def demoParts11 : List PartRecord := (List.range 11).map demoPart

/-- A run over eleven records in which every checkpoint write fails;
the first write is attempted after record 10 (iteration index 9). -/
def demoSaveFailFinal : AppState :=
  processPartsBackground demoLookup none (fun _ => false) true demoParts11 demoState0

/-- A demonstration leaderboard with a weighted-count tie between the
first-seen `Honda` and the later `Bmw`. -/
def demoLB : List (String × LBEntry) :=
  [("Ford", ⟨1, 3⟩), ("Honda", ⟨2, 5⟩), ("Bmw", ⟨1, 5⟩)]

/-- Reference description of a batch run stopped by a request arriving
at time `a` (counter starting at `i`): records strictly before the stop
are processed normally, the record whose fetch observes the flag is
completed as `NOT_FOUND`, and the loop exits at the next boundary.
Stated from the amended claim and proved equal to what `runBatch`
produces. -/
def stopSegment (lookup : PartRecord → Option (List String)) (a : Nat) :
    Nat → List PartRecord → List EnrichedResult
  | _, [] => []
  | i, p :: rest =>
    if a ≤ 2 * i then []
    else mkResult p (if a ≤ 2 * i + 1 then none else lookup p) ::
      stopSegment lookup a (i + 1) rest

/-! ## Character-level lemmas for the case functions -/

theorem charToNat_ofNat (n : Nat) (h : n < 55296) : (Char.ofNat n).toNat = n := by
  rw [Char.ofNat, dif_pos (Or.inl h)]
  rfl

theorem pyCharUpper_toNat (c : Char) (h : 97 ≤ c.toNat ∧ c.toNat ≤ 122) :
    (pyCharUpper c).toNat = c.toNat - 32 := by
  rw [pyCharUpper, if_pos h, charToNat_ofNat]
  omega

theorem pyCharLower_toNat (c : Char) (h : 65 ≤ c.toNat ∧ c.toNat ≤ 90) :
    (pyCharLower c).toNat = c.toNat + 32 := by
  rw [pyCharLower, if_pos h, charToNat_ofNat]
  omega

theorem pyCharUpper_eq_of_not (c : Char) (h : ¬(97 ≤ c.toNat ∧ c.toNat ≤ 122)) :
    pyCharUpper c = c := by
  rw [pyCharUpper, if_neg h]

theorem pyCharLower_eq_of_not (c : Char) (h : ¬(65 ≤ c.toNat ∧ c.toNat ≤ 90)) :
    pyCharLower c = c := by
  rw [pyCharLower, if_neg h]

theorem pyCharUpper_idem (c : Char) : pyCharUpper (pyCharUpper c) = pyCharUpper c := by
  by_cases h : 97 ≤ c.toNat ∧ c.toNat ≤ 122
  · have ht := pyCharUpper_toNat c h
    exact pyCharUpper_eq_of_not _ (by omega)
  · rw [pyCharUpper_eq_of_not c h, pyCharUpper_eq_of_not c h]

theorem pyCharUpper_pyCharLower (c : Char) :
    pyCharUpper (pyCharLower c) = pyCharUpper c := by
  by_cases h : 65 ≤ c.toNat ∧ c.toNat ≤ 90
  · have h1 := pyCharLower_toNat c h
    rw [pyCharUpper, if_pos (by omega), h1]
    rw [pyCharUpper, if_neg (by omega)]
    have h2 : c.toNat + 32 - 32 = c.toNat := by omega
    rw [h2, Char.ofNat_toNat]
  · rw [pyCharLower_eq_of_not c h]

theorem pyCharLower_idem (c : Char) : pyCharLower (pyCharLower c) = pyCharLower c := by
  by_cases h : 65 ≤ c.toNat ∧ c.toNat ≤ 90
  · have ht := pyCharLower_toNat c h
    exact pyCharLower_eq_of_not _ (by omega)
  · rw [pyCharLower_eq_of_not c h, pyCharLower_eq_of_not c h]

theorem pyIsAlpha_pyCharUpper (c : Char) : pyIsAlpha (pyCharUpper c) = pyIsAlpha c := by
  by_cases h : 97 ≤ c.toNat ∧ c.toNat ≤ 122
  · have ht := pyCharUpper_toNat c h
    rw [Bool.eq_iff_iff]
    simp only [pyIsAlpha, isAsciiUpperCh, isAsciiLowerCh, ht, Bool.or_eq_true,
      Bool.and_eq_true, decide_eq_true_eq]
    omega
  · rw [pyCharUpper_eq_of_not c h]

theorem pyIsAlpha_pyCharLower (c : Char) : pyIsAlpha (pyCharLower c) = pyIsAlpha c := by
  by_cases h : 65 ≤ c.toNat ∧ c.toNat ≤ 90
  · have ht := pyCharLower_toNat c h
    rw [Bool.eq_iff_iff]
    simp only [pyIsAlpha, isAsciiUpperCh, isAsciiLowerCh, ht, Bool.or_eq_true,
      Bool.and_eq_true, decide_eq_true_eq]
    omega
  · rw [pyCharLower_eq_of_not c h]

theorem pyTitleGo_map_upper (b : Bool) (l : List Char) :
    (pyTitleGo b l).map pyCharUpper = l.map pyCharUpper := by
  induction l generalizing b with
  | nil => rfl
  | cons c rest ih =>
    by_cases h : pyIsAlpha c = true
    · rw [pyTitleGo, if_pos h]
      cases b <;> simp [ih, pyCharUpper_idem, pyCharUpper_pyCharLower]
    · rw [pyTitleGo, if_neg h]
      simp only [List.map, ih]

theorem pyTitleGo_idem (b : Bool) (l : List Char) :
    pyTitleGo b (pyTitleGo b l) = pyTitleGo b l := by
  induction l generalizing b with
  | nil => rfl
  | cons c rest ih =>
    by_cases h : pyIsAlpha c = true
    · rw [pyTitleGo, if_pos h]
      cases b with
      | true =>
        rw [if_pos rfl, pyTitleGo, if_pos (by rw [pyIsAlpha_pyCharLower]; exact h),
          if_pos rfl, pyCharLower_idem, ih]
      | false =>
        rw [if_neg (by simp), pyTitleGo, if_pos (by rw [pyIsAlpha_pyCharUpper]; exact h),
          if_neg (by simp), pyCharUpper_idem, ih]
    · rw [pyTitleGo, if_neg h, pyTitleGo, if_neg h, ih]

theorem pyUpper_pyTitle (s : String) : pyUpper (pyTitle s) = pyUpper s := by
  simp only [pyUpper, pyTitle, pyTitleGo_map_upper]

theorem pyTitle_pyTitle (s : String) : pyTitle (pyTitle s) = pyTitle s := by
  simp only [pyTitle, pyTitleGo_idem]

/-- C10. Make normalisation is idempotent on its own outputs:
`normalize(normalize(m)) = normalize(m)` for every candidate make
string; the `CHEVY` alias normalises to `Chevrolet` in any letter
case, and `Chevrolet` itself is a fixed point. -/
theorem c10_normalize_make_idempotent :
    (∀ m, normalize_make (normalize_make m) = normalize_make m) ∧
    (∀ m, pyUpper m = "CHEVY" → normalize_make m = "Chevrolet") ∧
    normalize_make "Chevrolet" = "Chevrolet" := by
  refine ⟨fun m => ?_, fun m h => by rw [normalize_make, if_pos h], by decide⟩
  by_cases h : pyUpper m = "CHEVY"
  · have hm : normalize_make m = "Chevrolet" := by rw [normalize_make, if_pos h]
    rw [hm]
    decide
  · have hm : normalize_make m = pyTitle m := by rw [normalize_make, if_neg h]
    rw [hm, normalize_make, pyUpper_pyTitle, if_neg h, pyTitle_pyTitle]

/-- C10 witness: the theorem evaluated at the alias `"chevy"`. -/
theorem c10_normalize_make_idempotent_witness :
    normalize_make (normalize_make "chevy") = normalize_make "chevy" ∧
    normalize_make "chevy" = "Chevrolet" :=
  ⟨c10_normalize_make_idempotent.1 "chevy",
   c10_normalize_make_idempotent.2.1 "chevy" (by decide)⟩

/-! ## Resume scenario: the result log is rebuilt, not reused -/

/-- C1 (code-bug evidence). Stopping range `[0,2)` after `k = 1`
record and resuming: the resumed worker does begin at absolute index
`s + k = 1` and `processedCount` continues from 1 to 2, but the first
`k` results of the pre-stop log (`Honda`) are *not* the first `k`
entries of the final log — `process_parts_batch_async` starts a fresh
local `results = []` and assigns it over `state.results`, so the final
log holds only the post-resume record (`Ford`). -/
theorem c1_resume_discards_result_log :
    demoResume.2.toOption = some ([demoPart 1], 1) ∧
    demoPreStop.processed_count = 1 ∧
    demoPreStop.results.map (fun r => r.makes) = ["Honda"] ∧
    demoFinal.processed_count = 2 ∧
    demoFinal.results.map (fun r => r.makes) = ["Ford"] := by
  decide

/-- C2 (code-bug evidence). After the resumed run completes, the
session's result log has length 1 while `processedCount` is 2: the
invariant `len(resultLog) == processedCount` is broken by resume,
because the worker replaces the restored log with its fresh local
list. -/
theorem c2_resultlog_length_ne_processed_count :
    demoFinal.results.length = 1 ∧ demoFinal.processed_count = 2 ∧
    ¬ demoFinal.results.length = demoFinal.processed_count := by
  decide

/-- C3 (code-bug evidence). The cell text `"Fits: FORD,HONDA"`
contains the `fits` keyword followed by the dictionary makes `FORD`
and `HONDA` (both uppercase, length ≥ 3), yet extraction returns the
empty set: the fits-clause pattern is written with lowercase keyword
literals but matched against the upper-cased cell text, so it can
never fire, and the standalone-word heuristic strips the punctuation
into the single non-dictionary token `FORDHONDA`. -/
theorem c3_fits_clause_never_fires :
    is_known_make "FORD" = true ∧ is_known_make "HONDA" = true ∧
    extract_makes_from_cell [] "Fits: FORD,HONDA" = [] ∧
    fitsSearchGo (pyUpper "Fits: FORD,HONDA").data = none := by
  decide

/-- C4 counterexample. A stop request arriving after the boundary
check of iteration 0 but before its fetch (arrival time 1) is observed
*inside* `search_rockauto`, not at a record boundary: the in-flight
record is not finished normally but completed as `NOT_FOUND`, although
the very same record yields `Honda` when no stop arrives. -/
theorem c4_counterexample_stop_observed_mid_record :
    stopSeenAtBoundary (some 1) 0 = false ∧
    (runBatch demoLookup (some 1) (fun _ => true) [demoPart 0] 0 [] demoState0).2.1
      = [mkResult (demoPart 0) none] ∧
    (mkResult (demoPart 0) none).makes = "NOT_FOUND" ∧
    (runBatch demoLookup none (fun _ => true) [demoPart 0] 0 [] demoState0).2.1
      = [mkResult (demoPart 0) (some ["Honda"])] ∧
    (mkResult (demoPart 0) (some ["Honda"])).makes = "Honda" := by
  decide

/-- C5 counterexample. Eleven records with every checkpoint write
failing: the write attempted after the tenth record raises, the
background handler records an error message (the session is Failed),
and the eleventh record is never processed — the run does not
continue unaffected. -/
theorem c5_counterexample_checkpoint_failure_aborts :
    demoSaveFailFinal.error_message.isSome = true ∧
    demoSaveFailFinal.is_processing = false ∧
    demoSaveFailFinal.results.length = 10 ∧
    demoParts11.length = 11 := by
  decide

/-! ## Worker loop lemmas: stop handling -/

theorem runBatch_results_eq_stopSegment (lookup : PartRecord → Option (List String))
    (a : Nat) :
    ∀ (parts : List PartRecord) (i : Nat) (acc : List EnrichedResult) (s : AppState),
      (runBatch lookup (some a) (fun _ => true) parts i acc s).2.1
        = acc ++ stopSegment lookup a i parts := by
  intro parts
  induction parts with
  | nil => intro i acc s; simp [runBatch, stopSegment]
  | cons p rest ih =>
    intro i acc s
    by_cases hb : a ≤ 2 * i
    · have h1 : stopSeenAtBoundary (some a) i = true := by
        simp [stopSeenAtBoundary, hb]
      rw [runBatch, if_pos h1, stopSegment, if_pos hb, List.append_nil]
    · have h1 : ¬ stopSeenAtBoundary (some a) i = true := by
        simp [stopSeenAtBoundary, hb]
      rw [runBatch, if_neg h1, stopSegment, if_neg hb]
      rw [if_neg (by simp)]
      rw [ih]
      simp [search_rockauto_model, stopSeenAtFetch, List.append_assoc]

theorem stopSegment_length (lookup : PartRecord → Option (List String)) (a : Nat) :
    ∀ (parts : List PartRecord) (i : Nat),
      (stopSegment lookup a i parts).length = min ((a + 1) / 2 - i) parts.length := by
  intro parts
  induction parts with
  | nil => intro i; simp [stopSegment]
  | cons p rest ih =>
    intro i
    by_cases hb : a ≤ 2 * i
    · rw [stopSegment, if_pos hb]
      simp only [List.length_nil, List.length_cons]
      omega
    · rw [stopSegment, if_neg hb]
      simp only [List.length_cons, ih]
      omega

theorem stopSegment_get (lookup : PartRecord → Option (List String)) (a : Nat) :
    ∀ (parts : List PartRecord) (i j : Nat)
      (hj : j < (stopSegment lookup a i parts).length) (hp : j < parts.length),
      (stopSegment lookup a i parts).get ⟨j, hj⟩
        = mkResult (parts.get ⟨j, hp⟩)
            (if a ≤ 2 * (i + j) + 1 then none else lookup (parts.get ⟨j, hp⟩)) := by
  intro parts
  induction parts with
  | nil => intro i j hj hp; simp at hp
  | cons p rest ih =>
    intro i j hj hp
    by_cases hb : a ≤ 2 * i
    · rw [stopSegment, if_pos hb] at hj
      simp at hj
    · cases j with
      | zero =>
        have hg : (stopSegment lookup a i (p :: rest)).get ⟨0, hj⟩
            = mkResult p (if a ≤ 2 * i + 1 then none else lookup p) := by
          rw [List.get_of_eq (by rw [stopSegment, if_neg hb])]
          rfl
        rw [hg]
        simp
      | succ j' =>
        have hj' : j' < (stopSegment lookup a (i + 1) rest).length := by
          have := hj
          rw [stopSegment, if_neg hb] at this
          simpa using this
        have hp' : j' < rest.length := by simpa using hp
        have hg : (stopSegment lookup a i (p :: rest)).get ⟨j' + 1, hj⟩
            = (stopSegment lookup a (i + 1) rest).get ⟨j', hj'⟩ := by
          rw [List.get_of_eq (by rw [stopSegment, if_neg hb])]
          rfl
        rw [hg, ih (i + 1) j' hj' hp']
        have harith : i + 1 + j' = i + (j' + 1) := by omega
        simp [harith]

/-- C4 (amended). The worker observes the stop flag at record
boundaries and additionally `search_rockauto` observes it once more at
the start of each record's fetch. For a stop arriving at time `a`
(half-steps over the observation points), exactly
`min ((a+1)/2) n` records are processed, so at most one record's worth
of work happens after the stop; every record whose fetch began before
the stop is processed normally, while an in-flight record whose fetch
observes the flag still produces its `EnrichedResult` but with makes
`NOT_FOUND` rather than being finished normally (and the stop endpoint
separately hard-closes the browser session). -/
theorem c4_amended_stop_observation (lookup : PartRecord → Option (List String))
    (a : Nat) (parts : List PartRecord) (s : AppState) :
    (runBatch lookup (some a) (fun _ => true) parts 0 [] s).2.1.length
      = min ((a + 1) / 2) parts.length ∧
    ∀ j (hj : j < (runBatch lookup (some a) (fun _ => true) parts 0 [] s).2.1.length)
      (hp : j < parts.length),
      (2 * j + 1 < a →
        (runBatch lookup (some a) (fun _ => true) parts 0 [] s).2.1.get ⟨j, hj⟩
          = mkResult (parts.get ⟨j, hp⟩) (lookup (parts.get ⟨j, hp⟩))) ∧
      (a ≤ 2 * j + 1 →
        ((runBatch lookup (some a) (fun _ => true) parts 0 [] s).2.1.get ⟨j, hj⟩).makes
          = "NOT_FOUND") := by
  have he : (runBatch lookup (some a) (fun _ => true) parts 0 [] s).2.1
      = stopSegment lookup a 0 parts := by
    rw [runBatch_results_eq_stopSegment]
    rfl
  constructor
  · rw [he, stopSegment_length]
    omega
  · intro j hj hp
    have hj2 : j < (stopSegment lookup a 0 parts).length := by rw [← he]; exact hj
    have hg : (runBatch lookup (some a) (fun _ => true) parts 0 [] s).2.1.get ⟨j, hj⟩
        = (stopSegment lookup a 0 parts).get ⟨j, hj2⟩ := List.get_of_eq he _
    rw [hg, stopSegment_get lookup a parts 0 j hj2 hp]
    constructor
    · intro hlt
      rw [if_neg (by omega)]
    · intro hle
      rw [if_pos (by omega)]
      rfl

/-- C4 amended witness: two records, stop arriving during record 1's
progress await (time 3): record 0 is processed normally, record 1 is
completed as `NOT_FOUND`, and the loop stops with exactly 2 results. -/
theorem c4_amended_stop_observation_witness :
    (runBatch demoLookup (some 3) (fun _ => true) [demoPart 0, demoPart 1] 0 []
        demoState0).2.1.length = min ((3 + 1) / 2) 2 ∧
    ((runBatch demoLookup (some 3) (fun _ => true) [demoPart 0, demoPart 1] 0 []
        demoState0).2.1.get ⟨1, by decide⟩).makes = "NOT_FOUND" := by
  have h := c4_amended_stop_observation demoLookup 3 [demoPart 0, demoPart 1] demoState0
  exact ⟨h.1, (h.2 1 (by decide) (by decide)).2 (by omega)⟩

/-! ## Worker loop lemmas: checkpoint failure -/

theorem runBatch_save_failure (lookup : PartRecord → Option (List String))
    (saveOk : Nat → Bool) (j : Nat) (hmod : (j + 1) % 10 = 0)
    (hfail : saveOk j = false) :
    ∀ (parts : List PartRecord) (i : Nat) (acc : List EnrichedResult) (s : AppState),
      i ≤ j →
      (∀ k, i ≤ k → k < j → (k + 1) % 10 = 0 → saveOk k = true) →
      j - i < parts.length →
      (runBatch lookup none saveOk parts i acc s).2.2 = false ∧
      (runBatch lookup none saveOk parts i acc s).2.1.length
        = acc.length + (j + 1 - i) ∧
      (runBatch lookup none saveOk parts i acc s).1.results
        = (runBatch lookup none saveOk parts i acc s).2.1 := by
  intro parts
  induction parts with
  | nil =>
    intro i acc s hij hprev hlen
    simp at hlen
  | cons p rest ih =>
    intro i acc s hij hprev hlen
    have hnb : ¬ stopSeenAtBoundary none i = true := by simp [stopSeenAtBoundary]
    by_cases hji : i = j
    · subst hji
      rw [runBatch, if_neg hnb, if_pos ⟨hmod, hfail⟩]
      refine ⟨rfl, ?_, rfl⟩
      simp only [List.length_append, List.length_cons, List.length_nil]
      omega
    · have hstep : ¬ ((i + 1) % 10 = 0 ∧ saveOk i = false) := by
        rintro ⟨h1, h2⟩
        rw [hprev i (Nat.le_refl i) (by omega) h1] at h2
        cases h2
      rw [runBatch, if_neg hnb, if_neg hstep]
      have key : ∀ (acc2 : List EnrichedResult) (s2 : AppState),
          (runBatch lookup none saveOk rest (i + 1) acc2 s2).2.2 = false ∧
          (runBatch lookup none saveOk rest (i + 1) acc2 s2).2.1.length
            = acc2.length + (j + 1 - (i + 1)) ∧
          (runBatch lookup none saveOk rest (i + 1) acc2 s2).1.results
            = (runBatch lookup none saveOk rest (i + 1) acc2 s2).2.1 :=
        fun acc2 s2 => ih (i + 1) acc2 s2 (by omega)
          (fun k hk1 hk2 hk3 => hprev k (by omega) hk2 hk3)
          (by simp at hlen ⊢; omega)
      refine ⟨(key _ _).1, ?_, (key _ _).2.2⟩
      rw [(key _ _).2.1]
      simp only [List.length_append, List.length_cons, List.length_nil]
      omega

/-- C5 (amended). `save_session` has no exception handling: when the
checkpoint write attempted after record `j+1` (the first failing
write, at a multiple of 10) raises, the exception propagates out of
the worker into `process_parts_background`'s handler, which records
`errorMessage` (the session is Failed, an `error` event is emitted)
and stops the run: exactly `j+1` records are processed and retained,
and the remaining records are never processed. -/
theorem c5_amended_checkpoint_failure_fails_session
    (lookup : PartRecord → Option (List String)) (saveOk : Nat → Bool)
    (parts : List PartRecord) (s : AppState) (j : Nat)
    (hmod : (j + 1) % 10 = 0) (hfail : saveOk j = false)
    (hprev : ∀ k, k < j → (k + 1) % 10 = 0 → saveOk k = true)
    (hlen : j < parts.length) :
    (processPartsBackground lookup none saveOk true parts s).error_message.isSome
        = true ∧
    (processPartsBackground lookup none saveOk true parts s).is_processing = false ∧
    (processPartsBackground lookup none saveOk true parts s).results.length = j + 1 := by
  have h := runBatch_save_failure lookup saveOk j hmod hfail parts 0 [] s
    (Nat.zero_le j) (fun k _ hk2 hk3 => hprev k hk2 hk3) (by simpa using hlen)
  rw [processPartsBackground, if_pos h.1]
  refine ⟨rfl, rfl, ?_⟩
  simp only
  rw [h.2.2, h.2.1]
  simp

/-- C5 amended witness: eleven records, every checkpoint write
failing; the session fails with exactly ten retained results. -/
theorem c5_amended_checkpoint_failure_witness :
    (processPartsBackground demoLookup none (fun _ => false) true demoParts11
        demoState0).results.length = 9 + 1 :=
  (c5_amended_checkpoint_failure_fails_session demoLookup (fun _ => false)
    demoParts11 demoState0 9 (by decide) rfl
    (fun k hk hm => absurd hm (by omega)) (by decide)).2.2

/-- C6. With data loaded and no run in progress, a non-test
`Start(s, e)` request with an explicit end index is accepted if and
only if `0 ≤ s < e ≤ totalAutomotiveRecords`; any violating range is
rejected synchronously (before the worker is spawned) with no change
to the session state. -/
theorem c6_start_range_validation (s : AppState) (pd : PartsData) (sid : Nat)
    (a e : Int) (hproc : s.is_processing = false) (hdata : s.parts_data = some pd) :
    (isOkE (start_processing s sid ⟨a, some e, false⟩).2 = true ↔
      0 ≤ a ∧ a < e ∧ e ≤ (pd.automotive.length : Int)) ∧
    (¬(0 ≤ a ∧ a < e ∧ e ≤ (pd.automotive.length : Int)) →
      (start_processing s sid ⟨a, some e, false⟩).1 = s) := by
  rw [start_processing, if_neg (by simp [hproc]), hdata]
  simp only [Option.getD_some, if_neg Bool.false_ne_true]
  split_ifs with h1 h2 h3
  · exact ⟨by simp only [isOkE]; exact iff_of_false (by simp) (by omega), fun _ => rfl⟩
  · exact ⟨by simp only [isOkE]; exact iff_of_false (by simp) (by omega), fun _ => rfl⟩
  · exact ⟨by simp only [isOkE]; exact iff_of_false (by simp) (by omega), fun _ => rfl⟩
  · exact ⟨by simp only [isOkE]; exact iff_of_true trivial (by omega),
      fun hn => absurd (by omega) hn⟩

/-- C6 witness: `Start(0, 2)` on the two-part demo catalog is
accepted, and `Start(-1, 2)` is rejected with the state unchanged. -/
theorem c6_start_range_validation_witness :
    isOkE (start_processing demoState0 1 ⟨0, some 2, false⟩).2 = true ∧
    isOkE (start_processing demoState0 1 ⟨-1, some 2, false⟩).2 = false ∧
    (start_processing demoState0 1 ⟨-1, some 2, false⟩).1 = demoState0 := by
  have hpd : demoState0.parts_data = some ⟨[demoPart 0, demoPart 1], [], []⟩ := rfl
  have h1 := c6_start_range_validation demoState0 ⟨[demoPart 0, demoPart 1], [], []⟩ 1
    0 2 rfl hpd
  have h2 := c6_start_range_validation demoState0 ⟨[demoPart 0, demoPart 1], [], []⟩ 1
    (-1) 2 rfl hpd
  refine ⟨h1.1.mpr (by decide), ?_, h2.2 (by decide)⟩
  have hne := h2.1
  by_cases hx : isOkE (start_processing demoState0 1 ⟨-1, some 2, false⟩).2 = true
  · exact absurd (hne.mp hx) (by decide)
  · simpa using hx

/-! ## Leaderboard lemmas -/

theorem lbGet_bumpMap (make : String) (q : Int) (m : String) :
    ∀ lb : List (String × LBEntry),
      lbGet (lb.map (fun e =>
          if e.1 = make then (e.1, (⟨e.2.count + 1, e.2.weighted + q⟩ : LBEntry)) else e)) m
        = if lb.any (·.1 = m) = true ∧ m = make
          then ⟨(lbGet lb m).count + 1, (lbGet lb m).weighted + q⟩
          else lbGet lb m := by
  intro lb
  induction lb with
  | nil => simp [lbGet]
  | cons e t ih =>
    by_cases hem : e.1 = m
    · by_cases hmk : m = make
      · subst hmk
        simp [lbGet, hem, ih]
      · have hk : ¬ e.1 = make := by rw [hem]; exact hmk
        simp [lbGet, hem, hk, hmk]
    · by_cases hk : e.1 = make
      · have hmm : ¬ make = m := fun h => hem (hk.trans h)
        simp [lbGet, hem, hk, hmm, ih]
        rw [decide_eq_false hem, Bool.false_or]
      · simp [lbGet, hem, hk, ih]
        rw [decide_eq_false hem, Bool.false_or]

theorem lbGet_not_present (m : String) :
    ∀ lb : List (String × LBEntry), lb.any (·.1 = m) = false →
      lbGet lb m = ⟨0, 0⟩ := by
  intro lb
  induction lb with
  | nil => intro _; rfl
  | cons e t ih =>
    intro h
    simp only [List.any_cons, Bool.or_eq_false_iff, decide_eq_false_iff_not] at h
    rw [lbGet, if_neg h.1]
    exact ih h.2

theorem lbGet_append (m : String) (l2 : List (String × LBEntry)) :
    ∀ l1 : List (String × LBEntry),
      lbGet (l1 ++ l2) m = if l1.any (·.1 = m) then lbGet l1 m else lbGet l2 m := by
  intro l1
  induction l1 with
  | nil => simp [lbGet]
  | cons e t ih =>
    by_cases hem : e.1 = m
    · simp [lbGet, hem]
    · simp [lbGet, hem, ih]
      rw [decide_eq_false hem, Bool.false_or]

theorem any_key_bumpMap (make : String) (q : Int) (m : String) :
    ∀ lb : List (String × LBEntry),
      (lb.map (fun e =>
          if e.1 = make then (e.1, (⟨e.2.count + 1, e.2.weighted + q⟩ : LBEntry)) else e)).any
        (·.1 = m) = lb.any (·.1 = m) := by
  intro lb
  induction lb with
  | nil => rfl
  | cons e t ih =>
    by_cases hk : e.1 = make <;> simp [hk, ih]

theorem lbBump_get_self (lb : List (String × LBEntry)) (make : String) (q : Int) :
    lbGet (lbBump lb make q) make
      = ⟨(lbGet lb make).count + 1, (lbGet lb make).weighted + q⟩ := by
  rw [lbBump]
  by_cases h : lb.any (·.1 = make) = true
  · rw [if_pos h, lbGet_bumpMap, if_pos ⟨h, rfl⟩]
  · rw [if_neg h, List.map_append, lbGet_append, if_neg, lbGet_not_present make lb
      (Bool.eq_false_iff.mpr h)]
    · simp [lbGet]
    · rw [any_key_bumpMap]
      exact h

theorem lbBump_get_other (lb : List (String × LBEntry)) (make : String) (q : Int)
    (m : String) (hne : m ≠ make) : lbGet (lbBump lb make q) m = lbGet lb m := by
  rw [lbBump]
  by_cases h : lb.any (·.1 = make) = true
  · rw [if_pos h, lbGet_bumpMap, if_neg (fun hc => hne hc.2)]
  · rw [if_neg h, List.map_append, lbGet_append]
    by_cases hm : lb.any (·.1 = m) = true
    · rw [if_pos (by rw [any_key_bumpMap]; exact hm), lbGet_bumpMap,
        if_neg (fun hc => hne hc.2)]
    · rw [if_neg (by rw [any_key_bumpMap]; exact hm),
        lbGet_not_present m lb (Bool.eq_false_iff.mpr hm)]
      simp [lbGet, Ne.symm hne]

theorem foldl_lbBump (q : Int) :
    ∀ (tokens : List String) (lb : List (String × LBEntry)) (m : String),
      tokens.Nodup →
      (m ∈ tokens →
        lbGet (tokens.foldl (fun acc mk => lbBump acc mk q) lb) m
          = ⟨(lbGet lb m).count + 1, (lbGet lb m).weighted + q⟩) ∧
      (m ∉ tokens →
        lbGet (tokens.foldl (fun acc mk => lbBump acc mk q) lb) m = lbGet lb m) := by
  intro tokens
  induction tokens with
  | nil => intro lb m _; exact ⟨fun h => absurd h (List.not_mem_nil m), fun _ => rfl⟩
  | cons t rest ih =>
    intro lb m hnd
    have hnd' : rest.Nodup := hnd.of_cons
    constructor
    · intro hm
      rcases List.mem_cons.mp hm with hmt | hmr
      · subst hmt
        have hnot : m ∉ rest := (List.nodup_cons.mp hnd).1
        rw [List.foldl_cons, (ih (lbBump lb m q) m hnd').2 hnot, lbBump_get_self]
      · have hne : m ≠ t := by
          rintro rfl
          exact (List.nodup_cons.mp hnd).1 hmr
        rw [List.foldl_cons, (ih (lbBump lb t q) m hnd').1 hmr,
          lbBump_get_other lb t q m hne]
    · intro hm
      have hne : m ≠ t := fun hc => hm (hc ▸ List.mem_cons_self t rest)
      have hmr : m ∉ rest := fun hc => hm (List.mem_cons_of_mem t hc)
      rw [List.foldl_cons, (ih (lbBump lb t q) m hnd').2 hmr,
        lbBump_get_other lb t q m hne]

/-- C7. `update_leaderboard(makes, quantity)` is a no-op when `makes`
is empty or the `NOT_FOUND` sentinel; otherwise `makes` is split on
commas, each token whitespace-trimmed, empty tokens dropped, and (for
distinct tokens) each remaining make's `occurrenceCount` rises by
exactly 1 and its `weightedCount` by exactly `quantity`, while every
other entry is unchanged. -/
theorem c7_update_leaderboard_spec (lb : List (String × LBEntry)) (ml : String)
    (q : Int) :
    update_leaderboard lb "" q = lb ∧
    update_leaderboard lb "NOT_FOUND" q = lb ∧
    ((splitMakes ml).Nodup → ml ≠ "" → ml ≠ "NOT_FOUND" →
      ∀ m,
        (m ∈ splitMakes ml →
          (lbGet (update_leaderboard lb ml q) m).count = (lbGet lb m).count + 1 ∧
          (lbGet (update_leaderboard lb ml q) m).weighted = (lbGet lb m).weighted + q) ∧
        (m ∉ splitMakes ml →
          lbGet (update_leaderboard lb ml q) m = lbGet lb m)) := by
  refine ⟨by simp [update_leaderboard], by simp [update_leaderboard], ?_⟩
  intro hnd hne1 hne2 m
  rw [update_leaderboard, if_pos ⟨hne1, hne2⟩]
  constructor
  · intro hm
    rw [(foldl_lbBump q (splitMakes ml) lb m hnd).1 hm]
    exact ⟨rfl, rfl⟩
  · intro hm
    exact (foldl_lbBump q (splitMakes ml) lb m hnd).2 hm

/-- C7 witness: updating an empty leaderboard with `"Ford, Honda"` and
quantity 3 gives each of the two makes count 1 and weighted count 3,
leaves `"Bmw"` untouched, and `""`/`"NOT_FOUND"` are no-ops. -/
theorem c7_update_leaderboard_spec_witness :
    update_leaderboard [] "" 3 = [] ∧
    update_leaderboard [] "NOT_FOUND" 3 = [] ∧
    (lbGet (update_leaderboard [] "Ford, Honda" 3) "Ford").count = 1 ∧
    (lbGet (update_leaderboard [] "Ford, Honda" 3) "Honda").weighted = 3 ∧
    lbGet (update_leaderboard [] "Ford, Honda" 3) "Bmw" = ⟨0, 0⟩ := by
  have h := c7_update_leaderboard_spec [] "Ford, Honda" 3
  have hnd : (splitMakes "Ford, Honda").Nodup := by decide
  have hmain := h.2.2 hnd (by decide) (by decide)
  refine ⟨(c7_update_leaderboard_spec [] "" 3).1,
    (c7_update_leaderboard_spec [] "NOT_FOUND" 3).2.1, ?_, ?_, ?_⟩
  · have := (hmain "Ford").1 (by decide)
    rw [this.1]
    rfl
  · have := (hmain "Honda").1 (by decide)
    rw [this.2]
    rfl
  · exact (hmain "Bmw").2 (by decide)

/-! ## Broadcaster lemmas -/

theorem broadcastLoop_spec {α : Type} (ok : α → Bool) :
    ∀ conns : List α,
      (broadcastLoop ok conns).1 = conns.filter ok ∧
      (broadcastLoop ok conns).2 = conns.filter (fun c => !(ok c)) := by
  intro conns
  induction conns with
  | nil => exact ⟨rfl, rfl⟩
  | cons c rest ih =>
    by_cases hc : ok c = true <;>
      simp [broadcastLoop, hc, ih.1, ih.2, List.filter_cons]

theorem broadcast_spec {α : Type} [DecidableEq α] (ok : α → Bool) (conns : List α)
    (h : conns.Nodup) :
    (broadcast ok conns).1 = conns.filter ok ∧
    (broadcast ok conns).2 = conns.filter ok := by
  refine ⟨(broadcastLoop_spec ok conns).1, ?_⟩
  show (List.foldl (fun acc c => acc.erase c) conns (broadcastLoop ok conns).2)
      = conns.filter ok
  rw [(broadcastLoop_spec ok conns).2, ← List.diff_eq_foldl, h.diff_eq_filter]
  refine List.filter_congr ?_
  intro c hc
  by_cases hok : ok c = true
  · simp [hok, List.mem_filter, hc]
  · simp [hok, List.mem_filter, hc]

theorem filter_key_map {α Msg : Type} [DecidableEq α] (msg : Msg) (o : α) :
    ∀ delivered : List α, delivered.Nodup →
      (((delivered.map (fun c => (c, msg))).filter (fun x => decide (x.1 = o))).map
        (·.2)) = if o ∈ delivered then [msg] else [] := by
  intro delivered
  induction delivered with
  | nil => intro _; rfl
  | cons c t ih =>
    intro hnd
    by_cases hc : c = o
    · subst hc
      have hnot : c ∉ t := (List.nodup_cons.mp hnd).1
      have ht := ih (List.nodup_cons.mp hnd).2
      rw [if_neg hnot] at ht
      simp [List.filter_cons, ht]
    · have ht := ih (List.nodup_cons.mp hnd).2
      have hco : ¬ o = c := fun h => hc h.symm
      simp [List.filter_cons, decide_eq_false hc, ht, List.mem_cons, hco]

theorem runBroadcasts_per_observer {α Msg : Type} [DecidableEq α]
    (ok : α → Msg → Bool) (o : α) :
    ∀ (msgs : List Msg) (conns : List α), conns.Nodup →
      List.Sublist (deliveredTo o (runBroadcasts ok msgs conns).2) msgs := by
  intro msgs
  induction msgs with
  | nil => intro conns _; exact List.Sublist.refl []
  | cons msg rest ih =>
    intro conns hnd
    have hb := broadcast_spec (fun c => ok c msg) conns hnd
    have hnd1 : ((broadcast (fun c => ok c msg) conns).2).Nodup := by
      rw [hb.2]
      exact hnd.filter _
    have hdel : ((broadcast (fun c => ok c msg) conns).1).Nodup := by
      rw [hb.1]
      exact hnd.filter _
    rw [runBroadcasts]
    simp only [deliveredTo, List.filter_append, List.map_append]
    rw [filter_key_map msg o _ hdel]
    by_cases ho : o ∈ (broadcast (fun c => ok c msg) conns).1
    · rw [if_pos ho]
      exact (ih _ hnd1).cons₂ msg
    · rw [if_neg ho]
      exact (ih _ hnd1).cons msg

/-- C9. Broadcasting with a distinct observer registry: the observers
whose send fails are exactly the ones removed from the registry, every
other observer still receives the event (and the broadcast function
totalises, so the worker does not fail); over any sequence of
broadcasts, the messages any single observer receives form a
subsequence of the emission order (no reordering). -/
theorem c9_broadcast_failure_isolation {α Msg : Type} [DecidableEq α]
    (ok : α → Msg → Bool) (m : Msg) (conns : List α) (hnd : conns.Nodup) :
    (broadcast (fun c => ok c m) conns).1 = conns.filter (fun c => ok c m) ∧
    (broadcast (fun c => ok c m) conns).2 = conns.filter (fun c => ok c m) ∧
    (∀ msgs o, List.Sublist (deliveredTo o (runBroadcasts ok msgs conns).2) msgs) :=
  ⟨(broadcast_spec _ conns hnd).1, (broadcast_spec _ conns hnd).2,
   fun msgs o => runBroadcasts_per_observer ok o msgs conns hnd⟩

/-- C9 witness: three observers, observer 2's send fails on message
10: observers 1 and 3 both receive it, only observer 2 is removed,
and each observer's deliveries respect emission order. -/
theorem c9_broadcast_failure_isolation_witness :
    (broadcast (fun c => !(c == 2 && 10 == 10)) [1, 2, 3]).1 = [1, 3] ∧
    (broadcast (fun c => !(c == 2 && 10 == 10)) [1, 2, 3]).2 = [1, 3] ∧
    List.Sublist (deliveredTo 1 (runBroadcasts (fun (c m : Nat) => !(c == 2 && m == 10))
      [10, 20] [1, 2, 3]).2) [10, 20] := by
  have h := c9_broadcast_failure_isolation (fun (c m : Nat) => !(c == 2 && m == 10))
    10 [1, 2, 3] (by decide)
  refine ⟨h.1.trans (by decide), h.2.1.trans (by decide), h.2.2 [10, 20] 1⟩

/-! ## Leaderboard ranking lemmas

Python's `sorted(..., key=weighted, reverse=True)` is a stable
descending sort; its output is characterised through the sort of the
index-tagged entries by the total order "higher weight first, then
earlier insertion index first". -/


theorem map_snd_orderedInsert (a : Nat × (String × LBEntry)) :
    ∀ l : List (Nat × (String × LBEntry)), (∀ x ∈ l, a.1 < x.1) →
      (List.orderedInsert
          (fun u v => v.2.2.weighted < u.2.2.weighted ∨
            (u.2.2.weighted = v.2.2.weighted ∧ u.1 ≤ v.1)) a l).map Prod.snd
        = List.orderedInsert (fun u v => v.2.weighted ≤ u.2.weighted) a.2
            (l.map Prod.snd) := by
  intro l
  induction l with
  | nil => intro _; rfl
  | cons b t ih =>
    intro hlt
    have hab : a.1 < b.1 := hlt b (List.mem_cons_self b t)
    by_cases hR : b.2.2.weighted < a.2.2.weighted ∨
        (a.2.2.weighted = b.2.2.weighted ∧ a.1 ≤ b.1)
    · have hr : b.2.2.weighted ≤ a.2.2.weighted := by omega
      simp only [List.orderedInsert, List.map_cons]
      rw [if_pos hR, if_pos hr]
      simp
    · have hr : ¬ b.2.2.weighted ≤ a.2.2.weighted := fun hle => hR (by omega)
      simp only [List.orderedInsert, List.map_cons]
      rw [if_neg hR, if_neg hr, List.map_cons,
        ih (fun x hx => hlt x (List.mem_cons_of_mem b hx))]

theorem map_snd_insertionSort :
    ∀ l : List (Nat × (String × LBEntry)),
      l.Pairwise (fun x y => x.1 < y.1) →
      (List.insertionSort
          (fun u v => v.2.2.weighted < u.2.2.weighted ∨
            (u.2.2.weighted = v.2.2.weighted ∧ u.1 ≤ v.1)) l).map Prod.snd
        = List.insertionSort (fun u v => v.2.weighted ≤ u.2.weighted)
            (l.map Prod.snd) := by
  intro l
  induction l with
  | nil => intro _; rfl
  | cons a t ih =>
    intro hp
    have hhead : ∀ x ∈ t, a.1 < x.1 := (List.pairwise_cons.mp hp).1
    have htail := (List.pairwise_cons.mp hp).2
    simp only [List.insertionSort, List.map_cons]
    rw [map_snd_orderedInsert a _
      (fun x hx => hhead x ((List.perm_insertionSort _ t).mem_iff.mp hx)), ih htail]

theorem enum_pairwise_fst_lt (lb : List (String × LBEntry)) :
    lb.enum.Pairwise (fun x y => x.1 < y.1) := by
  have h := List.pairwise_lt_range lb.length
  rw [← List.enum_map_fst lb, List.pairwise_map] at h
  exact h

/-- C8. For every leaderboard and every `n`, `topN(n)` returns at most
`n` entries, sorted descending by `weightedCount`, and ties of equal
`weightedCount` are ordered by insertion position: whenever entry `i`
precedes entry `j` in the output with equal weights, entry `i` sits at
a strictly earlier position of the leaderboard (first-seen ranks
higher). -/
theorem c8_get_top_makes_ranking (lb : List (String × LBEntry)) (n : Nat) :
    (get_top_makes lb n).length ≤ n ∧
    List.Sorted (fun a b => b.2.weighted ≤ a.2.weighted) (get_top_makes lb n) ∧
    (∀ i j (hij : i < j) (hj : j < (get_top_makes lb n).length),
      ((get_top_makes lb n).get ⟨i, lt_trans hij hj⟩).2.weighted
          = ((get_top_makes lb n).get ⟨j, hj⟩).2.weighted →
      ∃ k₁ k₂ : Nat, k₁ < k₂ ∧
        lb[k₁]? = some ((get_top_makes lb n).get ⟨i, lt_trans hij hj⟩) ∧
        lb[k₂]? = some ((get_top_makes lb n).get ⟨j, hj⟩)) := by
  haveI hTot : IsTotal (String × LBEntry)
      (fun a b => b.2.weighted ≤ a.2.weighted) :=
    ⟨fun a b => Int.le_total b.2.weighted a.2.weighted⟩
  haveI hTrans : IsTrans (String × LBEntry)
      (fun a b => b.2.weighted ≤ a.2.weighted) :=
    ⟨fun _ _ _ hab hbc => le_trans hbc hab⟩
  haveI hTotR : IsTotal (Nat × (String × LBEntry))
      (fun u v => v.2.2.weighted < u.2.2.weighted ∨
        (u.2.2.weighted = v.2.2.weighted ∧ u.1 ≤ v.1)) :=
    ⟨fun a b => by omega⟩
  haveI hTransR : IsTrans (Nat × (String × LBEntry))
      (fun u v => v.2.2.weighted < u.2.2.weighted ∨
        (u.2.2.weighted = v.2.2.weighted ∧ u.1 ≤ v.1)) :=
    ⟨fun a b c hab hbc => by omega⟩
  set S := List.insertionSort
      (fun u v => v.2.2.weighted < u.2.2.weighted ∨
        (u.2.2.weighted = v.2.2.weighted ∧ u.1 ≤ v.1)) lb.enum with hSdef
  have hmap : S.map Prod.snd
      = List.insertionSort (fun a b => b.2.weighted ≤ a.2.weighted) lb := by
    rw [hSdef, map_snd_insertionSort lb.enum (enum_pairwise_fst_lt lb),
      List.enum_map_snd]
  refine ⟨?_, ?_, ?_⟩
  · rw [get_top_makes, List.length_take]
    exact min_le_left n _
  · rw [get_top_makes]
    exact (List.sorted_insertionSort _ lb).sublist (List.take_sublist n _)
  · intro i j hij hj hw
    have hjlen : j < (List.insertionSort
        (fun a b => b.2.weighted ≤ a.2.weighted) lb).length := by
      have hx := hj
      rw [get_top_makes, List.length_take] at hx
      omega
    have hilen : i < (List.insertionSort
        (fun a b => b.2.weighted ≤ a.2.weighted) lb).length := lt_trans hij hjlen
    have hgeti : (get_top_makes lb n).get ⟨i, lt_trans hij hj⟩
        = (List.insertionSort (fun a b => b.2.weighted ≤ a.2.weighted) lb).get
            ⟨i, hilen⟩ := by
      simp only [get_top_makes, List.get_eq_getElem, List.getElem_take]
    have hgetj : (get_top_makes lb n).get ⟨j, hj⟩
        = (List.insertionSort (fun a b => b.2.weighted ≤ a.2.weighted) lb).get
            ⟨j, hjlen⟩ := by
      simp only [get_top_makes, List.get_eq_getElem, List.getElem_take]
    have hlenS : S.length = (List.insertionSort
        (fun a b => b.2.weighted ≤ a.2.weighted) lb).length := by
      rw [← hmap, List.length_map]
    have hiS : i < S.length := by rw [hlenS]; exact hilen
    have hjS : j < S.length := by rw [hlenS]; exact hjlen
    have hsget : ∀ (k : Nat) (hk : k < S.length)
        (hk2 : k < (List.insertionSort
          (fun a b => b.2.weighted ≤ a.2.weighted) lb).length),
        (S.get ⟨k, hk⟩).2
          = (List.insertionSort (fun a b => b.2.weighted ≤ a.2.weighted) lb).get
              ⟨k, hk2⟩ := by
      intro k hk hk2
      have h1 : (S.map Prod.snd).get ⟨k, by rw [List.length_map]; exact hk⟩
          = (S.get ⟨k, hk⟩).2 := by
        simp only [List.get_eq_getElem, List.getElem_map]
      have h2 := List.get_of_eq hmap ⟨k, by rw [List.length_map]; exact hk⟩
      rw [h1] at h2
      exact h2
    have hsorted : List.Sorted
        (fun u v => v.2.2.weighted < u.2.2.weighted ∨
          (u.2.2.weighted = v.2.2.weighted ∧ u.1 ≤ v.1)) S :=
      List.sorted_insertionSort _ lb.enum
    have hrel := hsorted.rel_get_of_lt (a := ⟨i, hiS⟩) (b := ⟨j, hjS⟩)
      (Fin.mk_lt_mk.mpr hij)
    have hwS : (S.get ⟨i, hiS⟩).2.2.weighted = (S.get ⟨j, hjS⟩).2.2.weighted := by
      have h1 := hsget i hiS hilen
      have h2 := hsget j hjS hjlen
      rw [hgeti, ← h1, hgetj, ← h2] at hw
      exact hw
    have hfst : (S.get ⟨i, hiS⟩).1 ≠ (S.get ⟨j, hjS⟩).1 := by
      intro heq
      have hnd : List.Nodup (S.map Prod.fst) := by
        have hperm : List.Perm (S.map Prod.fst) (lb.enum.map Prod.fst) :=
          (List.perm_insertionSort _ lb.enum).map Prod.fst
        rw [hperm.nodup_iff]
        exact List.nodup_enum_map_fst lb
      have hinj := List.nodup_iff_injective_get.mp hnd
      have hiM : i < List.length (S.map Prod.fst) := by
        rw [List.length_map]; exact hiS
      have hjM : j < List.length (S.map Prod.fst) := by
        rw [List.length_map]; exact hjS
      have hgi : (S.map Prod.fst).get ⟨i, hiM⟩ = (S.get ⟨i, hiS⟩).1 := by
        simp only [List.get_eq_getElem, List.getElem_map]
      have hgj : (S.map Prod.fst).get ⟨j, hjM⟩ = (S.get ⟨j, hjS⟩).1 := by
        simp only [List.get_eq_getElem, List.getElem_map]
      have heq2 : (⟨i, hiM⟩ : Fin (List.length (S.map Prod.fst))) = ⟨j, hjM⟩ :=
        hinj (by rw [hgi, hgj, heq])
      have hij2 : i = j := congrArg Fin.val heq2
      omega
    have hidx : (S.get ⟨i, hiS⟩).1 < (S.get ⟨j, hjS⟩).1 := by
      rcases hrel with hlt | ⟨heq, hle⟩
      · omega
      · rcases Nat.lt_or_ge (S.get ⟨i, hiS⟩).1 (S.get ⟨j, hjS⟩).1 with h | h
        · exact h
        · exact absurd (Nat.le_antisymm hle h) hfst
    have hmema : S.get ⟨i, hiS⟩ ∈ lb.enum :=
      (List.perm_insertionSort _ lb.enum).subset (S.get_mem _ _)
    have hmemb : S.get ⟨j, hjS⟩ ∈ lb.enum :=
      (List.perm_insertionSort _ lb.enum).subset (S.get_mem _ _)
    refine ⟨(S.get ⟨i, hiS⟩).1, (S.get ⟨j, hjS⟩).1, hidx, ?_, ?_⟩
    · rw [hgeti, ← hsget i hiS hilen]
      exact List.mem_enum_iff_getElem?.mp hmema
    · rw [hgetj, ← hsget j hjS hjlen]
      exact List.mem_enum_iff_getElem?.mp hmemb

/-- C8 witness: on the demo leaderboard, `topN(10)` has at most 10
entries and the tied entries (`Honda` and `Bmw`, both weighted 5) come
from strictly increasing leaderboard positions — the first-seen
`Honda` ranks higher. -/
theorem c8_get_top_makes_ranking_witness :
    (get_top_makes demoLB 10).length ≤ 10 ∧
    ((get_top_makes demoLB 10).get ⟨0, by decide⟩).1 = "Honda" ∧
    ((get_top_makes demoLB 10).get ⟨1, by decide⟩).1 = "Bmw" ∧
    (∃ k₁ k₂ : Nat, k₁ < k₂ ∧
      demoLB[k₁]? = some ((get_top_makes demoLB 10).get ⟨0, by decide⟩) ∧
      demoLB[k₂]? = some ((get_top_makes demoLB 10).get ⟨1, by decide⟩)) := by
  have h := c8_get_top_makes_ranking demoLB 10
  exact ⟨h.1, by decide, by decide, h.2.2 0 1 (by decide) (by decide) (by decide)⟩
